import Mathlib

/-!
Verification development for the Malaysia public-holiday ingestion engine
(`scripts/ingest_data.py`).

Shallow embedding conventions:

* A `datetime.date` is represented by its proleptic-Gregorian ordinal
  (`datetime.date.toordinal`, day 1 = 0001-01-01).  `date + timedelta(days=1)`
  is ordinal `+ 1`, and `date.strftime('%A')` is `weekdayName` below
  (`0001-01-01` is a Monday).
* Python strings are Lean `String`s.  `str.split(sep)` for a one-character
  separator is `pySplit`, `str.strip()` is `pyStrip`, both defined by
  structural recursion on the character list so that concrete runs reduce in
  the kernel.
* Fallible code returns `Except String α`: `.error` marks behaviour that
  aborts the run (an uncaught Python exception, or — for the unbounded
  next-working-day search — divergence), `.ok` a normal return.
* The unbounded `while` loop of `get_next_working_day` is modelled with fuel
  7: the seven dates following the input realise all seven weekday values, so
  the fuelled search succeeds within 7 steps exactly when the Python loop
  terminates, and returns `none` exactly when the Python loop runs forever.
-/

namespace Ingest

/-! ### Python string helpers -/

/-- Python `str.strip()` whitespace set (ASCII part). -/
def isPySpace (c : Char) : Bool :=
  c = ' ' || c = '\t' || c = '\n' || c = '\r' || c = '\x0b' || c = '\x0c'

/-- Python `str.strip()`. -/
def pyStrip (s : String) : String :=
  String.mk (((s.data.dropWhile isPySpace).reverse.dropWhile isPySpace).reverse)

/-- Helper for `pySplit`: accumulates the current field (reversed). -/
def pySplitAux (sep : Char) : List Char → List Char → List String
  | [], acc => [String.mk acc.reverse]
  | c :: cs, acc =>
    if c = sep then String.mk acc.reverse :: pySplitAux sep cs []
    else pySplitAux sep cs (c :: acc)

/-- Python `str.split(sep)` for a single-character separator: splits at every
occurrence, keeping empty fields. -/
def pySplit (sep : Char) (s : String) : List String :=
  pySplitAux sep s.data []

/-- Digits-only parse; `none` on an empty or non-digit list. -/
def digitsToNat : List Char → Option Nat
  | l =>
    if l.isEmpty then none
    else if l.all Char.isDigit then
      some (l.foldl (fun acc c => acc * 10 + (c.toNat - 48)) 0)
    else none

/-- Python `int(s)` on a string: optional surrounding whitespace, optional
sign, decimal digits; `none` models a raised `ValueError`. -/
def pyInt (s : String) : Option Int :=
  match (pyStrip s).data with
  | '-' :: rest => (digitsToNat rest).map (fun n => -(n : Int))
  | '+' :: rest => (digitsToNat rest).map (fun n => (n : Int))
  | l => (digitsToNat l).map (fun n => (n : Int))

/-! ### Gregorian calendar (the fragment of `datetime.date` the script uses) -/

def isLeap (y : Nat) : Bool :=
  (y % 4 = 0 && y % 100 ≠ 0) || y % 400 = 0

def daysInMonth (y m : Nat) : Nat :=
  if m = 2 then (if isLeap y then 29 else 28)
  else if m = 4 || m = 6 || m = 9 || m = 11 then 30
  else 31

/-- Days strictly before January 1 of year `y` (Rata Die). -/
def daysBeforeYear (y : Nat) : Nat :=
  let p := y - 1
  p * 365 + p / 4 - p / 100 + p / 400

/-- Days of year `y` strictly before the first of month `m`. -/
def daysBeforeMonth (y m : Nat) : Nat :=
  (((List.range (m - 1)).map (fun i => daysInMonth y (i + 1)))).sum

/-- `datetime.date(y, m, d).toordinal()`. -/
def toOrd (y m d : Nat) : Nat :=
  daysBeforeYear y + daysBeforeMonth y m + d

/-- The constructor validity check of `datetime.date(year, month, day)`
(the day comes from `int(...)`, hence `Int`). -/
def isValidDate (y m : Nat) (d : Int) : Bool :=
  1 ≤ y && y ≤ 9999 && 1 ≤ m && m ≤ 12 && 1 ≤ d && d ≤ (daysInMonth y m : Int)

def weekdayNames : List String :=
  ["Monday", "Tuesday", "Wednesday", "Thursday", "Friday", "Saturday", "Sunday"]

/-- `date.strftime('%A')` on an ordinal: 0001-01-01 (ordinal 1) is a Monday. -/
def weekdayName (n : Nat) : String :=
  weekdayNames.getD ((n + 6) % 7) ""

/-! ### `MONTH_MAPPING` and `STATE_MAPPING` (ingest_data.py lines 20-31) -/

def MONTH_MAPPING : List (String × Nat) :=
  [("Januari", 1), ("Februari", 2), ("Mac", 3), ("April", 4), ("Mei", 5),
   ("Jun", 6), ("Julai", 7), ("Ogos", 8), ("September", 9), ("Oktober", 10),
   ("November", 11), ("Disember", 12)]

def STATE_MAPPING : List (String × String) :=
  [("JOHOR", "JHR"), ("KEDAH", "KDH"), ("KELANTAN", "KTN"), ("MELAKA", "MLK"),
   ("N.SEMBILAN", "NSN"), ("PAHANG", "PHG"), ("PERAK", "PRK"), ("PERLIS", "PLS"),
   ("P.PINANG", "PNG"), ("SABAH", "SBH"), ("SARAWAK", "SWK"), ("SELANGOR", "SGR"),
   ("TERENGGANU", "TRG"), ("W.P.K.LUMPUR", "KUL"), ("W.P.LABUAN", "LBN"),
   ("W.P.PUTRAJAYA", "WP")]

/-! ### `parse_date` (lines 47-70)

`int(parts[0])` is *not* guarded by the `try` (which only wraps the
`datetime.date` constructor), so a non-integer first token raises an uncaught
`ValueError`; this is the `.error` branch.  The caught failure modes
(`len(parts) < 2`, unknown month, invalid calendar date) return `None`,
embedded as `.ok none`. -/

def parse_date (date_str : String) (year : Nat) : Except String (Option Nat) :=
  let clean_str := pyStrip date_str
  let parts := pySplit ' ' clean_str
  if parts.length < 2 then .ok none
  else
    match pyInt (parts.getD 0 "") with
    | none => .error "ValueError: invalid literal for int"
    | some day =>
      let month_str := parts.getD 1 ""
      match MONTH_MAPPING.lookup month_str with
      | none => .ok none
      | some month =>
        if isValidDate year month day then .ok (some (toOrd year month day.toNat))
        else .ok none

/-! ### `get_next_working_day` (lines 72-78) and `get_replacement_date` (80-112) -/

/-- The `while next_date.strftime('%A') in weekend_days` loop, fuelled. -/
def nextWorkingDayFuel (weekend_days : List String) : Nat → Nat → Option Nat
  | 0, _ => none
  | fuel + 1, next_date =>
    if weekdayName next_date ∈ weekend_days then
      nextWorkingDayFuel weekend_days fuel (next_date + 1)
    else some next_date

/-- `get_next_working_day(date, weekend_days)`.  Fuel 7 is exact: the dates
`date+1 … date+7` realise all seven weekdays, so the result is `none` iff the
Python loop never terminates. -/
def get_next_working_day (date : Nat) (weekend_days : List String) : Option Nat :=
  nextWorkingDayFuel weekend_days 7 (date + 1)

/-- `get_replacement_date(holiday_date, weekend_days, replacement_rule)`.
Outer `none` marks divergence of the embedded `while` loop; otherwise the
result is the Python pair `(replacement date or None, reason or None)`.
The `replace_on_sunday` branch of the source is a no-op (`pass`), and the
`day_name == 'Saturday' and replacement_rule == 'no_replacement'` check is
kept in source order (it is unreachable: the rule check above it already
returned). -/
def get_replacement_date (holiday_date : Nat) (weekend_days : List String)
    (replacement_rule : String) : Option (Option Nat × Option String) :=
  let day_name := weekdayName holiday_date
  if day_name ∉ weekend_days then
    some (none, none)
  else if replacement_rule = "no_replacement" then
    some (none, some "No replacement rule involved")
  else if day_name = "Saturday" ∧ replacement_rule = "no_replacement" then
    some (none, some "Saturday holiday not replaced")
  else
    match get_next_working_day holiday_date weekend_days with
    | some d =>
      some (some d, some ("Original date falls on " ++ day_name ++ " (weekend)"))
    | none => none

/-! ### Data model of the `main` loop (lines 195-378) -/

/-- Per-state configuration row loaded from the `states` table (lines 176-181). -/
structure RegionConfig where
  weekend_days : List String
  saturday_replacement_rule : String
  deriving Repr, DecidableEq

/-- One CSV row: the name cell, the date cell, and the remaining columns as an
association list (`row.get(col, '')` is `Row.getVal`). -/
structure Row where
  raw_name : String
  raw_date : String
  cells : List (String × String)
  deriving Repr, DecidableEq

/-- `str(row.get(csv_col, '')).strip()`. -/
def Row.getVal (row : Row) (col : String) : String :=
  pyStrip ((row.cells.lookup col).getD "")

/-- One entry of `holidays_to_insert` (lines 269-281 and 347-359). -/
structure Holiday where
  id : String
  name : String
  name_en : String
  date : Nat
  day_of_week : String
  type : String
  is_replacement_holiday : Bool
  original_date : Option Nat
  original_holiday_id : Option String
  replaced_by : Option String
  replacement_reason : Option String
  deriving Repr, DecidableEq

/-- One entry of `holiday_states_to_insert`. -/
structure HolidayRegion where
  holiday_id : String
  state_code : String
  deriving Repr, DecidableEq

/-- `[x.strip() for x in raw.split('\n') if x.strip()]` (lines 211-212). -/
def splitClean (raw : String) : List String :=
  ((pySplit '\n' raw).map pyStrip).filter (fun x => x ≠ "")

/-- `h_name.replace('*', '')`: removes every asterisk. -/
def removeStars (s : String) : String :=
  String.mk (s.data.filter (fun c => c ≠ '*'))

/-- `h_name.replace('*', '').strip()` (line 232). -/
def cleanName (s : String) : String :=
  pyStrip (removeStars s)

/-- The state-marker loop (lines 241-249): a state observes the holiday iff
its cell, stripped, is exactly the `√` glyph.  (`is_national` is computed in
the source but never used; classification uses the list length.) -/
def affectedStates (row : Row) : List String :=
  STATE_MAPPING.filterMap (fun p => if row.getVal p.1 = "√" then some p.2 else none)

/-- `f"mys-{YEAR}-{global_id_counter:03d}"` (lines 265, 341). -/
def pad3 (n : Nat) : String :=
  if n < 10 then "00" ++ toString n
  else if n < 100 then "0" ++ toString n
  else toString n

def mkId (year ctr : Nat) : String :=
  "mys-" ++ toString year ++ "-" ++ pad3 ctr

/-- `replacements_map[r_date].append(state_code)` with Python-dict
insertion-order semantics (lines 334-336). -/
def insertGroup (m : List (Nat × List String)) (d : Nat) (s : String) :
    List (Nat × List String) :=
  match m with
  | [] => [(d, [s])]
  | (d', g) :: rest =>
    if d' = d then (d', g ++ [s]) :: rest
    else (d', g) :: insertGroup rest d s

/-- The replacement grouping loop (lines 328-336).  `states_config[state_code]`
is an unguarded dict access: a missing key raises `KeyError` (`.error`).
A diverging `get_next_working_day` is `.error "nontermination"`. -/
def computeReplacementsMap (h_date : Nat) (cfg : List (String × RegionConfig)) :
    List String → List (Nat × List String) → Except String (List (Nat × List String))
  | [], m => .ok m
  | state_code :: rest, m =>
    match cfg.lookup state_code with
    | none => .error "KeyError"
    | some config =>
      match get_replacement_date h_date config.weekend_days config.saturday_replacement_rule with
      | none => .error "nontermination"
      | some (some r_date, _) =>
        computeReplacementsMap h_date cfg rest (insertGroup m r_date state_code)
      | some (none, _) =>
        computeReplacementsMap h_date cfg rest m

/-- The replacement the engine resolves for one state (lookup + resolver),
collapsed to the optional date; used only in specifications. -/
def resolvedDate (h_date : Nat) (cfg : List (String × RegionConfig)) (s : String) :
    Option Nat :=
  (cfg.lookup s).bind fun config =>
    (get_replacement_date h_date config.weekend_days config.saturday_replacement_rule).bind
      fun p => p.1

/-- The replacement record built at lines 347-359. -/
def mkReplacement (r_id h_name_clean h_name_en : String) (r_date h_date : Nat)
    (h_id : String) : Holiday :=
  { id := r_id
    name := h_name_clean ++ " (Cuti Gantian)"
    name_en := h_name_en ++ " (Replacement)"
    date := r_date
    day_of_week := weekdayName r_date
    type := "replacement"
    is_replacement_holiday := true
    original_date := some h_date
    original_holiday_id := some h_id
    replaced_by := none
    replacement_reason := some ("Replacement for " ++ h_name_clean) }

/-- The emission loop over `replacements_map.items()` (lines 339-366): one
replacement `Holiday` per map entry, its links, and the advanced id counter. -/
def emitReplacements (h_id h_name_clean h_name_en : String) (h_date YEAR : Nat) :
    List (Nat × List String) → Nat → List Holiday × List HolidayRegion × Nat
  | [], ctr => ([], [], ctr)
  | (r_date, r_states) :: rest, ctr =>
    let r_id := mkId YEAR ctr
    let out := emitReplacements h_id h_name_clean h_name_en h_date YEAR rest (ctr + 1)
    (mkReplacement r_id h_name_clean h_name_en r_date h_date h_id :: out.1,
     r_states.map (fun rs => ⟨r_id, rs⟩) ++ out.2.1,
     out.2.2)

/-- The first per-state loop (lines 284-323) only appends the base links and
calls `get_replacement_date` behind a guarded `states_config.get`; its sole
observable effect beyond the links is that a diverging resolver call hangs the
run.  `true` iff no guarded call diverges. -/
def firstLoopCheck (h_date : Nat) (cfg : List (String × RegionConfig))
    (affected : List String) : Bool :=
  affected.all (fun sc =>
    match cfg.lookup sc with
    | none => true
    | some config =>
      (get_replacement_date h_date config.weekend_days config.saturday_replacement_rule).isSome)

/-- Processing of the fragment list of one row (the `for i in range(...)` body,
lines 227-378), accumulating holidays, links, and the id counter. -/
def processFragments (tr : String → String) (cfg : List (String × RegionConfig))
    (YEAR : Nat) (row : Row) :
    List (String × String) → Nat → Except String (List Holiday × List HolidayRegion × Nat)
  | [], ctr => .ok ([], [], ctr)
  | (h_name, h_date_str) :: rest, ctr =>
    let h_name_clean := cleanName h_name
    match parse_date h_date_str YEAR with
    | .error e => .error e
    | .ok none => processFragments tr cfg YEAR row rest ctr
    | .ok (some h_date) =>
      let affected := affectedStates row
      if affected.isEmpty then processFragments tr cfg YEAR row rest ctr
      else
        let h_type := if affected.length = STATE_MAPPING.length then "national" else "state"
        let h_name_en := tr h_name_clean
        let h_id := mkId YEAR ctr
        let baseRec : Holiday :=
          { id := h_id, name := h_name_clean, name_en := h_name_en, date := h_date
            day_of_week := weekdayName h_date, type := h_type
            is_replacement_holiday := false, original_date := none
            original_holiday_id := none, replaced_by := none, replacement_reason := none }
        let baseLinks := affected.map (fun sc => (⟨h_id, sc⟩ : HolidayRegion))
        if firstLoopCheck h_date cfg affected then
          match computeReplacementsMap h_date cfg affected [] with
          | .error e => .error e
          | .ok rmap =>
            let repl := emitReplacements h_id h_name_clean h_name_en h_date YEAR rmap (ctr + 1)
            match processFragments tr cfg YEAR row rest repl.2.2 with
            | .error e => .error e
            | .ok (hs, ls, ctrF) =>
              .ok (baseRec :: repl.1 ++ hs, baseLinks ++ repl.2.1 ++ ls, ctrF)
        else .error "nontermination"

/-- One row (lines 205-226 plus the fragment loop): split both cells, pair the
overlapping prefix positionally (`zip` = `range(min(len, len))`). -/
def processRow (tr : String → String) (cfg : List (String × RegionConfig))
    (YEAR : Nat) (row : Row) (ctr : Nat) :
    Except String (List Holiday × List HolidayRegion × Nat) :=
  processFragments tr cfg YEAR row ((splitClean row.raw_name).zip (splitClean row.raw_date)) ctr

/-- The whole engine over the materialised row list (`df.iterrows()`), with
the translation collaborator `tr` passed as a fixed oracle. -/
def runEngine (tr : String → String) (cfg : List (String × RegionConfig))
    (YEAR : Nat) : List Row → Nat → Except String (List Holiday × List HolidayRegion × Nat)
  | [], ctr => .ok ([], [], ctr)
  | row :: rest, ctr =>
    match processRow tr cfg YEAR row ctr with
    | .error e => .error e
    | .ok (hs, ls, ctr') =>
      match runEngine tr cfg YEAR rest ctr' with
      | .error e => .error e
      | .ok (hs2, ls2, ctrF) => .ok (hs ++ hs2, ls ++ ls2, ctrF)

/-! ### Concrete fixtures for witnesses and counterexamples -/

/-- 2026-02-21, a Saturday. -/
def dSat : Nat := toOrd 2026 2 21

/-- 2026-02-20, a Friday. -/
def dFri : Nat := toOrd 2026 2 20

def cfgA : List (String × RegionConfig) :=
  [("JHR", ⟨["Saturday", "Sunday"], "replace_next_working_day"⟩)]

/-- The Scenario-A row: two holidays sharing one table row, Johor marker set. -/
def rowA : Row :=
  ⟨"Hari Raya Puasa *\n\nHari Raya Puasa (Hari Kedua) *",
   "17 Februari\n\n18 Februari", [("JOHOR", "√")]⟩

/-- A row whose date cell has a non-integer day token. -/
def rowBadDate : Row := ⟨"Hari Ujian", "abc Februari", [("JOHOR", "√")]⟩

/-- A valid row, used against a configuration missing the `JHR` entry. -/
def rowC5 : Row := ⟨"Hari Ujian", "17 Februari", [("JOHOR", "√")]⟩

/-- Three regions: two Friday–Saturday states sharing a Sunday replacement,
one Saturday–Sunday state replacing on Monday. -/
def cfgW : List (String × RegionConfig) :=
  [("KTN", ⟨["Friday", "Saturday"], "replace_on_sunday"⟩),
   ("TRG", ⟨["Friday", "Saturday"], "replace_on_sunday"⟩),
   ("JHR", ⟨["Saturday", "Sunday"], "replace_next_working_day"⟩)]

/-- The grouping map the engine builds for `dSat` over `cfgW`. -/
def rmapW : List (Nat × List String) :=
  [(dSat + 1, ["KTN", "TRG"]), (dSat + 2, ["JHR"])]

/-- Expected holiday output of `processRow` on `rowA`. -/
def hsA : List Holiday :=
  [{ id := "mys-2026-001", name := "Hari Raya Puasa", name_en := "Hari Raya Puasa",
     date := toOrd 2026 2 17, day_of_week := "Tuesday", type := "state",
     is_replacement_holiday := false, original_date := none,
     original_holiday_id := none, replaced_by := none, replacement_reason := none },
   { id := "mys-2026-002", name := "Hari Raya Puasa (Hari Kedua)",
     name_en := "Hari Raya Puasa (Hari Kedua)",
     date := toOrd 2026 2 18, day_of_week := "Wednesday", type := "state",
     is_replacement_holiday := false, original_date := none,
     original_holiday_id := none, replaced_by := none, replacement_reason := none }]

/-- Expected link output of `processRow` on `rowA`. -/
def lsA : List HolidayRegion :=
  [⟨"mys-2026-001", "JHR"⟩, ⟨"mys-2026-002", "JHR"⟩]

/-! ### Helper lemmas: the weekday cycle and the bounded search -/

theorem weekdayName_mem (n : Nat) : weekdayName n ∈ weekdayNames := by
  have h : (n + 6) % 7 < 7 := Nat.mod_lt _ (by norm_num)
  have hlen : (n + 6) % 7 < weekdayNames.length := by simpa [weekdayNames] using h
  rw [weekdayName, List.getD_eq_getElem _ _ hlen]
  exact List.getElem_mem hlen

theorem weekday_index_of_mem (nm : String) (h : nm ∈ weekdayNames) :
    ∃ j, j < 7 ∧ weekdayNames.getD j "" = nm := by
  obtain ⟨j, hj, hget⟩ := List.getElem_of_mem h
  refine ⟨j, by simpa [weekdayNames] using hj, ?_⟩
  rw [List.getD_eq_getElem _ _ hj]
  exact hget

/-- Any weekday value is realised within the seven dates `s, s+1, …, s+6`. -/
theorem weekday_cycle (s : Nat) (nm : String) (h : nm ∈ weekdayNames) :
    ∃ i, i < 7 ∧ weekdayName (s + i) = nm := by
  obtain ⟨j, hj7, hget⟩ := weekday_index_of_mem nm h
  refine ⟨(j + 7 - (s + 6) % 7) % 7, Nat.mod_lt _ (by norm_num), ?_⟩
  have hmod : (s + (j + 7 - (s + 6) % 7) % 7 + 6) % 7 = j := by omega
  rw [weekdayName, hmod]
  exact hget

theorem nwdf_some_bounds (w : List String) :
    ∀ fuel s d : Nat, nextWorkingDayFuel w fuel s = some d → s ≤ d ∧ d < s + fuel := by
  intro fuel
  induction fuel with
  | zero => intro s d h; simp [nextWorkingDayFuel] at h
  | succ n ih =>
    intro s d h
    rw [nextWorkingDayFuel] at h
    by_cases hm : weekdayName s ∈ w
    · rw [if_pos hm] at h
      have := ih (s + 1) d h
      omega
    · rw [if_neg hm] at h
      have : s = d := by simpa using h
      omega

/-- The fuelled search finds the least non-weekend date when one exists in
range. -/
theorem nwdf_find (w : List String) :
    ∀ fuel s : Nat, (∃ i, i < fuel ∧ weekdayName (s + i) ∉ w) →
      ∃ d, nextWorkingDayFuel w fuel s = some d ∧ weekdayName d ∉ w ∧
        ∀ e, s ≤ e → e < d → weekdayName e ∈ w := by
  intro fuel
  induction fuel with
  | zero => rintro s ⟨i, hi, -⟩; omega
  | succ n ih =>
    rintro s ⟨i, hi, hni⟩
    by_cases hm : weekdayName s ∈ w
    · have hi0 : i ≠ 0 := by
        rintro rfl
        exact hni hm
      obtain ⟨d, hd, hdn, hmin⟩ := ih (s + 1)
        ⟨i - 1, by omega, by
          have he : s + 1 + (i - 1) = s + i := by omega
          rw [he]; exact hni⟩
      refine ⟨d, ?_, hdn, ?_⟩
      · rw [nextWorkingDayFuel, if_pos hm]; exact hd
      · intro e he hed
        rcases Nat.eq_or_lt_of_le he with rfl | hlt
        · exact hm
        · exact hmin e (by omega) hed
    · refine ⟨s, ?_, hm, ?_⟩
      · rw [nextWorkingDayFuel, if_neg hm]
      · intro e he hed
        exact absurd (Nat.lt_of_le_of_lt he hed) (Nat.lt_irrefl s)

/-- If the weekend pattern contains all seven weekday names, the search fails
for every fuel — the source loop never terminates. -/
theorem nwdf_none_of_all (w : List String) (hall : ∀ nm ∈ weekdayNames, nm ∈ w) :
    ∀ fuel s : Nat, nextWorkingDayFuel w fuel s = none := by
  intro fuel
  induction fuel with
  | zero => intro s; rfl
  | succ n ih =>
    intro s
    rw [nextWorkingDayFuel, if_pos (hall _ (weekdayName_mem s))]
    exact ih (s + 1)

/-- Full specification of `get_next_working_day` under the totality
precondition: it returns the least date after the input whose weekday is
outside the pattern, and that date is at most 7 days later. -/
theorem gnwd_spec (hd : Nat) (w : List String) (hw : ∃ nm ∈ weekdayNames, nm ∉ w) :
    ∃ d, get_next_working_day hd w = some d ∧ hd < d ∧ d ≤ hd + 7 ∧
      weekdayName d ∉ w ∧ ∀ e, hd < e → e < d → weekdayName e ∈ w := by
  obtain ⟨nm, hmem, hnot⟩ := hw
  obtain ⟨i, hi7, hwd⟩ := weekday_cycle (hd + 1) nm hmem
  obtain ⟨d, hsome, hdn, hmin⟩ := nwdf_find w 7 (hd + 1)
    ⟨i, hi7, by rw [hwd]; exact hnot⟩
  obtain ⟨hle, hlt⟩ := nwdf_some_bounds w 7 (hd + 1) d hsome
  exact ⟨d, hsome, by omega, by omega, hdn, fun e he hed => hmin e (by omega) hed⟩

/-! Branch equations for `get_replacement_date`. -/

theorem grd_not_weekend (hd : Nat) (w : List String) (r : String)
    (hmem : weekdayName hd ∉ w) :
    get_replacement_date hd w r = some (none, none) := by
  unfold get_replacement_date
  rw [if_pos hmem]

theorem grd_no_replacement (hd : Nat) (w : List String) (r : String)
    (hmem : weekdayName hd ∈ w) (hr : r = "no_replacement") :
    get_replacement_date hd w r = some (none, some "No replacement rule involved") := by
  unfold get_replacement_date
  rw [if_neg (not_not_intro hmem), if_pos hr]

theorem grd_working (hd : Nat) (w : List String) (r : String)
    (hmem : weekdayName hd ∈ w) (hr : r ≠ "no_replacement") :
    get_replacement_date hd w r =
      match get_next_working_day hd w with
      | some d =>
        some (some d, some ("Original date falls on " ++ weekdayName hd ++ " (weekend)"))
      | none => none := by
  unfold get_replacement_date
  rw [if_neg (not_not_intro hmem), if_neg hr, if_neg (fun hc => hr hc.2)]

/-- A produced replacement date lies strictly after the holiday and at most 7
days later. -/
theorem grd_date_bounds (hd : Nat) (w : List String) (r : String) (d : Nat)
    (reason : Option String)
    (h : get_replacement_date hd w r = some (some d, reason)) :
    hd < d ∧ d ≤ hd + 7 := by
  by_cases hmem : weekdayName hd ∈ w
  · by_cases hr : r = "no_replacement"
    · rw [grd_no_replacement hd w r hmem hr] at h
      simp at h
    · rw [grd_working hd w r hmem hr] at h
      cases hg : get_next_working_day hd w with
      | none => rw [hg] at h; simp at h
      | some d' =>
        rw [hg] at h
        have hd' : d' = d := by
          have := congrArg (fun x => (Option.map Prod.fst x)) h
          simpa using this
        subst hd'
        obtain ⟨h5, h6⟩ := nwdf_some_bounds w 7 (hd + 1) d' hg
        omega
  · rw [grd_not_weekend hd w r hmem] at h
    simp at h

/-! ### Helper lemmas: the grouping map -/

theorem ig_keys (m : List (Nat × List String)) (d : Nat) (s : String) :
    (insertGroup m d s).map Prod.fst =
      if d ∈ m.map Prod.fst then m.map Prod.fst else m.map Prod.fst ++ [d] := by
  induction m with
  | nil => simp [insertGroup]
  | cons p rest ih =>
    obtain ⟨d', g⟩ := p
    by_cases hd : d' = d
    · subst hd
      simp [insertGroup]
    · rw [insertGroup, if_neg hd]
      have hmem : d ∈ ((d', g) :: rest).map Prod.fst ↔ d ∈ rest.map Prod.fst := by
        simp [Ne.symm hd]
      by_cases hin : d ∈ rest.map Prod.fst
      · rw [if_pos (hmem.mpr hin)]
        simp [ih, hin]
      · rw [if_neg (fun hc => hin (hmem.mp hc))]
        simp [ih, hin]

theorem ig_mem_keys (m : List (Nat × List String)) (d : Nat) (s : String) (x : Nat) :
    x ∈ (insertGroup m d s).map Prod.fst ↔ x ∈ m.map Prod.fst ∨ x = d := by
  rw [ig_keys]
  by_cases hin : d ∈ m.map Prod.fst
  · rw [if_pos hin]
    constructor
    · exact fun h => Or.inl h
    · rintro (h | rfl)
      · exact h
      · exact hin
  · rw [if_neg hin]
    simp

theorem ig_nodup_keys (m : List (Nat × List String)) (d : Nat) (s : String)
    (h : (m.map Prod.fst).Nodup) : ((insertGroup m d s).map Prod.fst).Nodup := by
  rw [ig_keys]
  by_cases hin : d ∈ m.map Prod.fst
  · rw [if_pos hin]; exact h
  · rw [if_neg hin]
    simp [List.nodup_append, h, hin]

theorem ig_mem_groups (m : List (Nat × List String)) (d : Nat) (s : String) (x : String) :
    (∃ p ∈ insertGroup m d s, x ∈ p.2) ↔ (∃ p ∈ m, x ∈ p.2) ∨ x = s := by
  induction m with
  | nil => simp [insertGroup]
  | cons p rest ih =>
    obtain ⟨d', g⟩ := p
    by_cases hd : d' = d
    · subst hd
      rw [insertGroup, if_pos rfl]
      simp only [List.mem_cons, List.mem_append, List.mem_singleton]
      constructor
      · rintro ⟨q, (rfl | hq), hx⟩
        · rcases (List.mem_append.mp hx) with hx | hx
          · exact Or.inl ⟨(d', g), Or.inl rfl, hx⟩
          · exact Or.inr (List.mem_singleton.mp hx)
        · exact Or.inl ⟨q, Or.inr hq, hx⟩
      · rintro (⟨q, (rfl | hq), hx⟩ | rfl)
        · exact ⟨(d', g ++ [s]), Or.inl rfl, List.mem_append.mpr (Or.inl hx)⟩
        · exact ⟨q, Or.inr hq, hx⟩
        · exact ⟨(d', g ++ [x]), Or.inl rfl, List.mem_append.mpr (Or.inr (List.mem_singleton.mpr rfl))⟩
    · rw [insertGroup, if_neg hd]
      simp only [List.mem_cons]
      constructor
      · rintro ⟨q, (rfl | hq), hx⟩
        · exact Or.inl ⟨(d', g), Or.inl rfl, hx⟩
        · rcases ih.mp ⟨q, hq, hx⟩ with ⟨q', hq', hx'⟩ | rfl
          · exact Or.inl ⟨q', Or.inr hq', hx'⟩
          · exact Or.inr rfl
      · rintro (⟨q, (rfl | hq), hx⟩ | rfl)
        · exact ⟨(d', g), Or.inl rfl, hx⟩
        · obtain ⟨q', hq', hx'⟩ := ih.mpr (Or.inl ⟨q, hq, hx⟩)
          exact ⟨q', Or.inr hq', hx'⟩
        · obtain ⟨q', hq', hx'⟩ := ih.mpr (Or.inr rfl)
          exact ⟨q', Or.inr hq', hx'⟩

theorem ig_nonempty (m : List (Nat × List String)) (d : Nat) (s : String)
    (h : ∀ p ∈ m, p.2 ≠ []) : ∀ p ∈ insertGroup m d s, p.2 ≠ [] := by
  induction m with
  | nil =>
    intro p hp
    rw [insertGroup] at hp
    rcases List.mem_singleton.mp hp with rfl
    simp
  | cons q rest ih =>
    obtain ⟨d', g⟩ := q
    intro p hp
    by_cases hd : d' = d
    · subst hd
      rw [insertGroup, if_pos rfl] at hp
      rcases List.mem_cons.mp hp with rfl | hp'
      · simp
      · exact h p (List.mem_cons_of_mem _ hp')
    · rw [insertGroup, if_neg hd] at hp
      rcases List.mem_cons.mp hp with rfl | hp'
      · exact h _ (List.mem_cons_self _ _)
      · exact ih (fun q hq => h q (List.mem_cons_of_mem _ hq)) p hp'

/-- Unfolding `resolvedDate` when a date is produced. -/
theorem resolvedDate_some (h_date : Nat) (cfg : List (String × RegionConfig))
    (s : String) (d : Nat) (h : resolvedDate h_date cfg s = some d) :
    ∃ c reason, cfg.lookup s = some c ∧
      get_replacement_date h_date c.weekend_days c.saturday_replacement_rule
        = some (some d, reason) := by
  simp only [resolvedDate, Option.bind_eq_some] at h
  obtain ⟨c, hl, p, hg, hp⟩ := h
  exact ⟨c, p.2, hl, hg.trans (congrArg some (Prod.ext hp rfl))⟩

/-- Keys of the grouping map after the loop: the distinct replacement dates
already present plus those arising from the processed regions. -/
theorem crm_keys (h_date : Nat) (cfg : List (String × RegionConfig)) :
    ∀ (affected : List String) (m rmap : List (Nat × List String)),
      computeReplacementsMap h_date cfg affected m = .ok rmap →
      ∀ d, d ∈ rmap.map Prod.fst ↔
        d ∈ m.map Prod.fst ∨ ∃ s ∈ affected, resolvedDate h_date cfg s = some d := by
  intro affected
  induction affected with
  | nil =>
    intro m rmap h d
    rw [computeReplacementsMap] at h
    obtain rfl : m = rmap := by simpa using h
    simp
  | cons s rest ih =>
    intro m rmap h d
    rw [computeReplacementsMap] at h
    split at h
    · exact absurd h (by simp)
    · rename_i config hl
      split at h
      · exact absurd h (by simp)
      · rename_i rd reason hg
        have hres : resolvedDate h_date cfg s = some rd := by
          simp [resolvedDate, hl, hg]
        rw [ih _ _ h d, ig_mem_keys]
        constructor
        · rintro ((hm | rfl) | ⟨s', hs', hres'⟩)
          · exact Or.inl hm
          · exact Or.inr ⟨s, List.mem_cons_self _ _, hres⟩
          · exact Or.inr ⟨s', List.mem_cons_of_mem _ hs', hres'⟩
        · rintro (hm | ⟨s', hs', hres'⟩)
          · exact Or.inl (Or.inl hm)
          · rcases List.mem_cons.mp hs' with rfl | hs''
            · rw [hres'] at hres
              exact Or.inl (Or.inr (by simpa using hres))
            · exact Or.inr ⟨s', hs'', hres'⟩
      · rename_i reason hg
        have hres : resolvedDate h_date cfg s = none := by
          simp [resolvedDate, hl, hg]
        rw [ih _ _ h d]
        constructor
        · rintro (hm | ⟨s', hs', hres'⟩)
          · exact Or.inl hm
          · exact Or.inr ⟨s', List.mem_cons_of_mem _ hs', hres'⟩
        · rintro (hm | ⟨s', hs', hres'⟩)
          · exact Or.inl hm
          · rcases List.mem_cons.mp hs' with rfl | hs''
            · rw [hres'] at hres; exact absurd hres (by simp)
            · exact Or.inr ⟨s', hs'', hres'⟩

/-- Region membership in the grouping map after the loop: the regions already
present plus exactly those processed regions whose resolution produced a
date. -/
theorem crm_groups (h_date : Nat) (cfg : List (String × RegionConfig)) :
    ∀ (affected : List String) (m rmap : List (Nat × List String)),
      computeReplacementsMap h_date cfg affected m = .ok rmap →
      ∀ x, (∃ p ∈ rmap, x ∈ p.2) ↔
        (∃ p ∈ m, x ∈ p.2) ∨ (x ∈ affected ∧ ∃ d, resolvedDate h_date cfg x = some d) := by
  intro affected
  induction affected with
  | nil =>
    intro m rmap h x
    rw [computeReplacementsMap] at h
    obtain rfl : m = rmap := by simpa using h
    simp
  | cons s rest ih =>
    intro m rmap h x
    rw [computeReplacementsMap] at h
    split at h
    · exact absurd h (by simp)
    · rename_i config hl
      split at h
      · exact absurd h (by simp)
      · rename_i rd reason hg
        have hres : resolvedDate h_date cfg s = some rd := by
          simp [resolvedDate, hl, hg]
        rw [ih _ _ h x]
        rw [ig_mem_groups]
        constructor
        · rintro ((hm | rfl) | ⟨hx, d, hd⟩)
          · exact Or.inl hm
          · exact Or.inr ⟨List.mem_cons_self _ _, rd, hres⟩
          · exact Or.inr ⟨List.mem_cons_of_mem _ hx, d, hd⟩
        · rintro (hm | ⟨hx, d, hd⟩)
          · exact Or.inl (Or.inl hm)
          · rcases List.mem_cons.mp hx with rfl | hx'
            · exact Or.inl (Or.inr rfl)
            · exact Or.inr ⟨hx', d, hd⟩
      · rename_i reason hg
        have hres : resolvedDate h_date cfg s = none := by
          simp [resolvedDate, hl, hg]
        rw [ih _ _ h x]
        constructor
        · rintro (hm | ⟨hx, d, hd⟩)
          · exact Or.inl hm
          · exact Or.inr ⟨List.mem_cons_of_mem _ hx, d, hd⟩
        · rintro (hm | ⟨hx, d, hd⟩)
          · exact Or.inl hm
          · rcases List.mem_cons.mp hx with rfl | hx'
            · rw [hd] at hres; exact absurd hres (by simp)
            · exact Or.inr ⟨hx', d, hd⟩

/-- The loop preserves distinctness of the grouping keys. -/
theorem crm_nodup (h_date : Nat) (cfg : List (String × RegionConfig)) :
    ∀ (affected : List String) (m rmap : List (Nat × List String)),
      computeReplacementsMap h_date cfg affected m = .ok rmap →
      (m.map Prod.fst).Nodup → (rmap.map Prod.fst).Nodup := by
  intro affected
  induction affected with
  | nil =>
    intro m rmap h hm
    rw [computeReplacementsMap] at h
    obtain rfl : m = rmap := by simpa using h
    exact hm
  | cons s rest ih =>
    intro m rmap h hm
    rw [computeReplacementsMap] at h
    split at h
    · exact absurd h (by simp)
    · rename_i config hl
      split at h
      · exact absurd h (by simp)
      · rename_i rd reason hg
        exact ih _ _ h (ig_nodup_keys m rd s hm)
      · rename_i reason hg
        exact ih _ _ h hm

/-- The loop preserves non-emptiness of every region group. -/
theorem crm_nonempty (h_date : Nat) (cfg : List (String × RegionConfig)) :
    ∀ (affected : List String) (m rmap : List (Nat × List String)),
      computeReplacementsMap h_date cfg affected m = .ok rmap →
      (∀ p ∈ m, p.2 ≠ []) → ∀ p ∈ rmap, p.2 ≠ [] := by
  intro affected
  induction affected with
  | nil =>
    intro m rmap h hm
    rw [computeReplacementsMap] at h
    obtain rfl : m = rmap := by simpa using h
    exact hm
  | cons s rest ih =>
    intro m rmap h hm
    rw [computeReplacementsMap] at h
    split at h
    · exact absurd h (by simp)
    · rename_i config hl
      split at h
      · exact absurd h (by simp)
      · rename_i rd reason hg
        exact ih _ _ h (ig_nonempty m rd s hm)
      · rename_i reason hg
        exact ih _ _ h hm

/-! ### Helper lemmas: the emission loop -/

theorem emit_dates (h_id h_name_clean h_name_en : String) (h_date YEAR : Nat) :
    ∀ (rmap : List (Nat × List String)) (ctr : Nat),
      ((emitReplacements h_id h_name_clean h_name_en h_date YEAR rmap ctr).1.map
        Holiday.date) = rmap.map Prod.fst := by
  intro rmap
  induction rmap with
  | nil => intro ctr; rfl
  | cons p rest ih =>
    intro ctr
    obtain ⟨rd, rs⟩ := p
    simp only [emitReplacements, List.map_cons]
    rw [ih]
    rfl

theorem emit_structure (h_id h_name_clean h_name_en : String) (h_date YEAR : Nat) :
    ∀ (rmap : List (Nat × List String)) (ctr : Nat),
      ∀ h ∈ (emitReplacements h_id h_name_clean h_name_en h_date YEAR rmap ctr).1,
        ∃ rid rd, rd ∈ rmap.map Prod.fst ∧
          h = mkReplacement rid h_name_clean h_name_en rd h_date h_id := by
  intro rmap
  induction rmap with
  | nil => intro ctr h hh; simp [emitReplacements] at hh
  | cons p rest ih =>
    intro ctr h hh
    obtain ⟨rd, rs⟩ := p
    simp only [emitReplacements, List.mem_cons] at hh
    rcases hh with rfl | hh'
    · exact ⟨mkId YEAR ctr, rd, by simp, rfl⟩
    · obtain ⟨rid, rd', hmem, heq⟩ := ih (ctr + 1) h hh'
      exact ⟨rid, rd', by simp [hmem], heq⟩

theorem emit_links (h_id h_name_clean h_name_en : String) (h_date YEAR : Nat) :
    ∀ (rmap : List (Nat × List String)) (ctr : Nat) (x : String),
      (∃ l ∈ (emitReplacements h_id h_name_clean h_name_en h_date YEAR rmap ctr).2.1,
        l.state_code = x) ↔ ∃ p ∈ rmap, x ∈ p.2 := by
  intro rmap
  induction rmap with
  | nil => intro ctr x; simp [emitReplacements]
  | cons p rest ih =>
    intro ctr x
    obtain ⟨rd, rs⟩ := p
    simp only [emitReplacements, List.mem_append, List.mem_map, List.mem_cons]
    constructor
    · rintro ⟨l, (⟨s0, hs0, rfl⟩ | hl), hsc⟩
      · exact ⟨(rd, rs), Or.inl rfl, by simpa using hsc ▸ hs0⟩
      · obtain ⟨q, hq, hx⟩ := (ih (ctr + 1) x).mp ⟨l, hl, hsc⟩
        exact ⟨q, Or.inr hq, hx⟩
    · rintro ⟨q, (rfl | hq), hx⟩
      · exact ⟨⟨mkId YEAR ctr, x⟩, Or.inl ⟨x, hx, rfl⟩, rfl⟩
      · obtain ⟨l, hl, hsc⟩ := (ih (ctr + 1) x).mpr ⟨q, hq, hx⟩
        exact ⟨l, Or.inr hl, hsc⟩

theorem emit_linked (h_id h_name_clean h_name_en : String) (h_date YEAR : Nat) :
    ∀ (rmap : List (Nat × List String)) (ctr : Nat),
      (∀ p ∈ rmap, p.2 ≠ []) →
      ∀ h ∈ (emitReplacements h_id h_name_clean h_name_en h_date YEAR rmap ctr).1,
        ∃ l ∈ (emitReplacements h_id h_name_clean h_name_en h_date YEAR rmap ctr).2.1,
          l.holiday_id = h.id := by
  intro rmap
  induction rmap with
  | nil => intro ctr hne h hh; simp [emitReplacements] at hh
  | cons p rest ih =>
    intro ctr hne h hh
    obtain ⟨rd, rs⟩ := p
    simp only [emitReplacements, List.mem_cons] at hh
    rcases hh with rfl | hh'
    · have hrs : rs ≠ [] := by
        have := hne (rd, rs) (List.mem_cons_self _ _)
        simpa using this
      obtain ⟨s0, hs0⟩ := List.exists_mem_of_ne_nil rs hrs
      refine ⟨⟨mkId YEAR ctr, s0⟩, ?_, rfl⟩
      simp only [emitReplacements, List.mem_append, List.mem_map]
      exact Or.inl ⟨s0, hs0, rfl⟩
    · obtain ⟨l, hl, hid⟩ := ih (ctr + 1) (fun q hq => hne q (List.mem_cons_of_mem _ hq)) h hh'
      refine ⟨l, ?_, hid⟩
      simp only [emitReplacements, List.mem_append]
      exact Or.inr hl

/-- The seven weekday names are distinct, so a name determines the index. -/
theorem weekdayName_eq_iff (n j : Nat) (hj : j < 7) :
    weekdayName n = weekdayNames.getD j "" ↔ (n + 6) % 7 = j := by
  have hdec : ∀ a < 7, ∀ b < 7,
      (weekdayNames.getD a "" = weekdayNames.getD b "" ↔ a = b) := by decide
  constructor
  · intro h
    exact (hdec _ (Nat.mod_lt _ (by norm_num)) _ hj).mp h
  · intro h
    rw [weekdayName, h]

theorem weekdayName_eq_fri (n : Nat) : weekdayName n = "Friday" ↔ (n + 6) % 7 = 4 :=
  weekdayName_eq_iff n 4 (by norm_num)

theorem weekdayName_eq_sat (n : Nat) : weekdayName n = "Saturday" ↔ (n + 6) % 7 = 5 :=
  weekdayName_eq_iff n 5 (by norm_num)

theorem weekdayName_eq_sun (n : Nat) : weekdayName n = "Sunday" ↔ (n + 6) % 7 = 6 :=
  weekdayName_eq_iff n 6 (by norm_num)

/-- C2: for every holiday date and region configuration (whose weekend pattern
leaves at least one weekday name uncovered, the totality precondition of the
search), the Replacement Resolver returns no replacement exactly when the
weekday is outside the weekend pattern or the rule is `no_replacement`, and in
every other weekend case it returns the first date after the holiday whose
weekday is outside the pattern. -/
theorem C2_replacement_resolver (hd : Nat) (w : List String) (rule : String)
    (hw : ∃ nm ∈ weekdayNames, nm ∉ w) :
    ∃ od reason, get_replacement_date hd w rule = some (od, reason) ∧
      (od = none ↔ weekdayName hd ∉ w ∨ rule = "no_replacement") ∧
      ∀ d, od = some d →
        hd < d ∧ weekdayName d ∉ w ∧ ∀ e, hd < e → e < d → weekdayName e ∈ w := by
  by_cases hmem : weekdayName hd ∈ w
  · by_cases hrule : rule = "no_replacement"
    · refine ⟨none, some "No replacement rule involved",
        grd_no_replacement hd w rule hmem hrule, ?_, ?_⟩
      · exact ⟨fun _ => Or.inr hrule, fun _ => rfl⟩
      · intro d hcontra
        exact absurd hcontra (by simp)
    · obtain ⟨d, hg, hlt, hle, hout, hmin⟩ := gnwd_spec hd w hw
      refine ⟨some d, some ("Original date falls on " ++ weekdayName hd ++ " (weekend)"),
        ?_, ?_, ?_⟩
      · rw [grd_working hd w rule hmem hrule, hg]
      · constructor
        · intro hcontra; exact absurd hcontra (by simp)
        · rintro (hni | hr)
          · exact absurd hmem hni
          · exact absurd hr hrule
      · intro d' hd'
        obtain rfl : d = d' := by simpa using hd'
        exact ⟨hlt, hout, hmin⟩
  · refine ⟨none, none, grd_not_weekend hd w rule hmem, ?_, ?_⟩
    · exact ⟨fun _ => Or.inl hmem, fun _ => rfl⟩
    · intro d hcontra
      exact absurd hcontra (by simp)

/-- C2 witness: a Saturday holiday in a Saturday–Sunday state with a
non-`no_replacement` rule resolves per the theorem. -/
theorem C2_witness :
    ∃ od reason,
      get_replacement_date dSat ["Saturday", "Sunday"] "replace_next_working_day"
        = some (od, reason) ∧
      (od = none ↔ weekdayName dSat ∉ ["Saturday", "Sunday"]
        ∨ "replace_next_working_day" = "no_replacement") ∧
      ∀ d, od = some d → dSat < d ∧ weekdayName d ∉ ["Saturday", "Sunday"] ∧
        ∀ e, dSat < e → e < d → weekdayName e ∈ ["Saturday", "Sunday"] :=
  C2_replacement_resolver dSat ["Saturday", "Sunday"] "replace_next_working_day"
    ⟨"Monday", by decide, by decide⟩

/-- C3 counterexample: with a Friday–Saturday weekend pattern, a Saturday
holiday under the `replace_on_sunday` rule *does* produce a replacement (the
next day, a Sunday), and a Friday holiday under the `no_replacement` rule
produces none — so no rule tag realises "Saturday exempt, Friday replaced". -/
theorem C3_counterexample :
    get_replacement_date dSat ["Friday", "Saturday"] "replace_on_sunday"
      = some (some (dSat + 1), some "Original date falls on Saturday (weekend)") ∧
    weekdayName (dSat + 1) = "Sunday" ∧
    get_replacement_date dFri ["Friday", "Saturday"] "no_replacement"
      = some (none, some "No replacement rule involved") :=
  ⟨rfl, rfl, rfl⟩

/-- C3 amended: for a Friday–Saturday weekend pattern, under
`replace_on_sunday` both Friday and Saturday holidays are replaced on the
following Sunday, and under `no_replacement` neither is replaced (the
Saturday-specific exemption in the source is unreachable because the generic
rule check precedes it). -/
theorem C3_amended_rule_behavior (hd : Nat) :
    (weekdayName hd = "Saturday" →
      (∃ reason, get_replacement_date hd ["Friday", "Saturday"] "replace_on_sunday"
        = some (some (hd + 1), reason)) ∧ weekdayName (hd + 1) = "Sunday") ∧
    (weekdayName hd = "Friday" →
      (∃ reason, get_replacement_date hd ["Friday", "Saturday"] "replace_on_sunday"
        = some (some (hd + 2), reason)) ∧ weekdayName (hd + 2) = "Sunday") ∧
    ((weekdayName hd = "Friday" ∨ weekdayName hd = "Saturday") →
      get_replacement_date hd ["Friday", "Saturday"] "no_replacement"
        = some (none, some "No replacement rule involved")) := by
  refine ⟨?_, ?_, ?_⟩
  · intro hsat
    have h5 : (hd + 6) % 7 = 5 := (weekdayName_eq_sat hd).mp hsat
    have hsun : weekdayName (hd + 1) = "Sunday" :=
      (weekdayName_eq_sun (hd + 1)).mpr (by omega)
    have hmem : weekdayName hd ∈ ["Friday", "Saturday"] := by rw [hsat]; decide
    have hg : get_next_working_day hd ["Friday", "Saturday"] = some (hd + 1) := by
      rw [get_next_working_day,
        show nextWorkingDayFuel ["Friday", "Saturday"] 7 (hd + 1)
          = if weekdayName (hd + 1) ∈ ["Friday", "Saturday"]
            then nextWorkingDayFuel ["Friday", "Saturday"] 6 (hd + 1 + 1)
            else some (hd + 1) from rfl,
        hsun, if_neg (by decide)]
    refine ⟨⟨some ("Original date falls on " ++ weekdayName hd ++ " (weekend)"), ?_⟩, hsun⟩
    rw [grd_working hd _ _ hmem (by decide), hg]
  · intro hfri
    have h4 : (hd + 6) % 7 = 4 := (weekdayName_eq_fri hd).mp hfri
    have hsat1 : weekdayName (hd + 1) = "Saturday" :=
      (weekdayName_eq_sat (hd + 1)).mpr (by omega)
    have hsun : weekdayName (hd + 2) = "Sunday" :=
      (weekdayName_eq_sun (hd + 2)).mpr (by omega)
    have hmem : weekdayName hd ∈ ["Friday", "Saturday"] := by rw [hfri]; decide
    have hg : get_next_working_day hd ["Friday", "Saturday"] = some (hd + 2) := by
      rw [get_next_working_day,
        show nextWorkingDayFuel ["Friday", "Saturday"] 7 (hd + 1)
          = if weekdayName (hd + 1) ∈ ["Friday", "Saturday"]
            then nextWorkingDayFuel ["Friday", "Saturday"] 6 (hd + 1 + 1)
            else some (hd + 1) from rfl,
        hsat1, if_pos (by decide),
        show nextWorkingDayFuel ["Friday", "Saturday"] 6 (hd + 1 + 1)
          = if weekdayName (hd + 1 + 1) ∈ ["Friday", "Saturday"]
            then nextWorkingDayFuel ["Friday", "Saturday"] 5 (hd + 1 + 1 + 1)
            else some (hd + 1 + 1) from rfl,
        show hd + 1 + 1 = hd + 2 from rfl, hsun, if_neg (by decide)]
    refine ⟨⟨some ("Original date falls on " ++ weekdayName hd ++ " (weekend)"), ?_⟩, hsun⟩
    rw [grd_working hd _ _ hmem (by decide), hg]
  · rintro (hday | hday) <;>
      exact grd_no_replacement hd _ _ (by rw [hday]; decide) rfl

/-- C3 amended witness: instantiated at the concrete Saturday 2026-02-21 and
Friday 2026-02-20. -/
theorem C3_amended_witness :
    ((∃ reason, get_replacement_date dSat ["Friday", "Saturday"] "replace_on_sunday"
        = some (some (dSat + 1), reason)) ∧ weekdayName (dSat + 1) = "Sunday") ∧
    get_replacement_date dFri ["Friday", "Saturday"] "no_replacement"
      = some (none, some "No replacement rule involved") :=
  ⟨(C3_amended_rule_behavior dSat).1 (by decide),
   (C3_amended_rule_behavior dFri).2.2 (Or.inl (by decide))⟩

/-- C9: if at least one weekday name is missing from the weekend pattern,
`get_next_working_day` terminates with a date at most 7 days after its input;
if the pattern contains all seven names, the fuelled search fails for every
fuel — the source loop never terminates, so totality depends on this unstated
precondition. -/
theorem C9_next_working_day_totality (d : Nat) (w : List String) :
    ((∃ nm ∈ weekdayNames, nm ∉ w) →
      ∃ r, get_next_working_day d w = some r ∧ d < r ∧ r ≤ d + 7) ∧
    ((∀ nm ∈ weekdayNames, nm ∈ w) →
      ∀ fuel s : Nat, nextWorkingDayFuel w fuel s = none) := by
  constructor
  · intro hw
    obtain ⟨r, h1, h2, h3, -, -⟩ := gnwd_spec d w hw
    exact ⟨r, h1, h2, h3⟩
  · intro hall
    exact nwdf_none_of_all w hall

/-- C9 witness: termination for a Saturday–Sunday pattern, divergence for the
all-seven pattern. -/
theorem C9_witness :
    (∃ r, get_next_working_day 0 ["Saturday", "Sunday"] = some r ∧ 0 < r ∧ r ≤ 7) ∧
    nextWorkingDayFuel weekdayNames 9 5 = none :=
  ⟨(C9_next_working_day_totality 0 ["Saturday", "Sunday"]).1
      ⟨"Monday", by decide, by decide⟩,
   (C9_next_working_day_totality 0 weekdayNames).2 (fun _ h => h) 9 5⟩

/-- C1: when the per-holiday grouping loop completes, the Replacement
Aggregator emits exactly one replacement record per distinct replacement
date (their dates are the grouping keys, which are distinct), the arising
dates are exactly those some observing region resolves to, and the union of
the emitted records' observing-region links is exactly the set of observing
regions whose resolution produced a date. -/
theorem C1_replacement_aggregator (h_date : Nat) (affected : List String)
    (cfg : List (String × RegionConfig)) (rmap : List (Nat × List String))
    (h_id h_name_clean h_name_en : String) (YEAR ctr : Nat)
    (hok : computeReplacementsMap h_date cfg affected [] = .ok rmap) :
    ((emitReplacements h_id h_name_clean h_name_en h_date YEAR rmap ctr).1.map
      Holiday.date = rmap.map Prod.fst) ∧
    (rmap.map Prod.fst).Nodup ∧
    (emitReplacements h_id h_name_clean h_name_en h_date YEAR rmap ctr).1.length
      = rmap.length ∧
    (∀ d, d ∈ rmap.map Prod.fst ↔ ∃ s ∈ affected, resolvedDate h_date cfg s = some d) ∧
    (∀ x, (∃ l ∈ (emitReplacements h_id h_name_clean h_name_en h_date YEAR rmap ctr).2.1,
      l.state_code = x) ↔ x ∈ affected ∧ ∃ d, resolvedDate h_date cfg x = some d) := by
  refine ⟨emit_dates h_id h_name_clean h_name_en h_date YEAR rmap ctr,
    crm_nodup h_date cfg affected [] rmap hok (by simp), ?_, ?_, ?_⟩
  · have h := congrArg List.length (emit_dates h_id h_name_clean h_name_en h_date YEAR rmap ctr)
    simpa using h
  · intro d
    rw [crm_keys h_date cfg affected [] rmap hok d]
    simp
  · intro x
    rw [emit_links h_id h_name_clean h_name_en h_date YEAR rmap ctr x,
      crm_groups h_date cfg affected [] rmap hok x]
    simp

/-- C1 witness: a Saturday holiday observed by KTN, TRG (both resolving to
Sunday) and JHR (resolving to Monday) yields two replacement records. -/
theorem C1_witness :
    ((emitReplacements "mys-2026-001" "Hari Ujian" "Test Holiday" dSat 2026 rmapW 2).1.map
      Holiday.date = rmapW.map Prod.fst) ∧
    (rmapW.map Prod.fst).Nodup ∧
    (emitReplacements "mys-2026-001" "Hari Ujian" "Test Holiday" dSat 2026 rmapW 2).1.length
      = rmapW.length ∧
    (∀ d, d ∈ rmapW.map Prod.fst ↔
      ∃ s ∈ ["KTN", "TRG", "JHR"], resolvedDate dSat cfgW s = some d) ∧
    (∀ x, (∃ l ∈ (emitReplacements "mys-2026-001" "Hari Ujian" "Test Holiday" dSat 2026
      rmapW 2).2.1, l.state_code = x) ↔
      x ∈ ["KTN", "TRG", "JHR"] ∧ ∃ d, resolvedDate dSat cfgW x = some d) :=
  C1_replacement_aggregator dSat ["KTN", "TRG", "JHR"] cfgW rmapW
    "mys-2026-001" "Hari Ujian" "Test Holiday" 2026 2 rfl

/-- C10: every emitted replacement record carries type `"replacement"`, the
replacement flag, the base holiday's date as `original_date`, the base
holiday's id as `original_holiday_id`, an unset `replaced_by`, and a date
strictly later than the back-referenced original date. -/
theorem C10_replacement_record_fields (h_date : Nat) (affected : List String)
    (cfg : List (String × RegionConfig)) (rmap : List (Nat × List String))
    (h_id h_name_clean h_name_en : String) (YEAR ctr : Nat)
    (hok : computeReplacementsMap h_date cfg affected [] = .ok rmap) :
    ∀ h ∈ (emitReplacements h_id h_name_clean h_name_en h_date YEAR rmap ctr).1,
      h.type = "replacement" ∧ h.is_replacement_holiday = true ∧
      h.original_date = some h_date ∧ h.original_holiday_id = some h_id ∧
      h.replaced_by = none ∧ h_date < h.date := by
  intro h hh
  obtain ⟨rid, rd, hmem, rfl⟩ :=
    emit_structure h_id h_name_clean h_name_en h_date YEAR rmap ctr h hh
  refine ⟨rfl, rfl, rfl, rfl, rfl, ?_⟩
  obtain ⟨s, -, hres⟩ := (crm_keys h_date cfg affected [] rmap hok rd).mp hmem
    |>.resolve_left (by simp)
  obtain ⟨c, reason, -, hg⟩ := resolvedDate_some h_date cfg s rd hres
  exact (grd_date_bounds h_date c.weekend_days c.saturday_replacement_rule rd reason hg).1

/-- C10 witness: the Sunday replacement record of the `cfgW` scenario carries
all the required fields. -/
theorem C10_witness :
    (mkReplacement (mkId 2026 2) "Hari Ujian" "Test Holiday" (dSat + 1) dSat
      "mys-2026-001").type = "replacement" ∧
    (mkReplacement (mkId 2026 2) "Hari Ujian" "Test Holiday" (dSat + 1) dSat
      "mys-2026-001").is_replacement_holiday = true ∧
    (mkReplacement (mkId 2026 2) "Hari Ujian" "Test Holiday" (dSat + 1) dSat
      "mys-2026-001").original_date = some dSat ∧
    (mkReplacement (mkId 2026 2) "Hari Ujian" "Test Holiday" (dSat + 1) dSat
      "mys-2026-001").original_holiday_id = some "mys-2026-001" ∧
    (mkReplacement (mkId 2026 2) "Hari Ujian" "Test Holiday" (dSat + 1) dSat
      "mys-2026-001").replaced_by = none ∧
    dSat < (mkReplacement (mkId 2026 2) "Hari Ujian" "Test Holiday" (dSat + 1) dSat
      "mys-2026-001").date :=
  C10_replacement_record_fields dSat ["KTN", "TRG", "JHR"] cfgW rmapW
    "mys-2026-001" "Hari Ujian" "Test Holiday" 2026 2 rfl
    (mkReplacement (mkId 2026 2) "Hari Ujian" "Test Holiday" (dSat + 1) dSat
      "mys-2026-001")
    (by decide)

/-- C4 counterexample: a date string whose first token is not an integer
literal raises an uncaught `ValueError` in `int(parts[0])`, aborting the whole
run — date resolution is not non-fatal for every unparseable input. -/
theorem C4_counterexample :
    parse_date "abc Februari" 2026 = Except.error "ValueError: invalid literal for int" ∧
    runEngine id cfgA 2026 [rowBadDate] 1
      = Except.error "ValueError: invalid literal for int" :=
  ⟨rfl, rfl⟩

/-- C4 amended: date resolution fails non-fatally (fragment skipped, row
processing continues) when fewer than two space-separated tokens are present,
when the month name is unknown, or when the day/month/year triple is not a
valid calendar date — provided the day token parses as an integer; a
non-integer day token instead raises an uncaught exception. -/
theorem C4_amended_nonfatal (s : String) (y : Nat) (tr : String → String)
    (cfg : List (String × RegionConfig)) (row : Row) (nm : String)
    (rest : List (String × String)) (ctr : Nat) :
    ((pySplit ' ' (pyStrip s)).length < 2 → parse_date s y = .ok none) ∧
    (∀ d : Int, pyInt ((pySplit ' ' (pyStrip s)).getD 0 "") = some d →
      MONTH_MAPPING.lookup ((pySplit ' ' (pyStrip s)).getD 1 "") = none →
      parse_date s y = .ok none) ∧
    (∀ (d : Int) (mth : Nat), pyInt ((pySplit ' ' (pyStrip s)).getD 0 "") = some d →
      MONTH_MAPPING.lookup ((pySplit ' ' (pyStrip s)).getD 1 "") = some mth →
      isValidDate y mth d = false → parse_date s y = .ok none) ∧
    (parse_date s y = .ok none →
      processFragments tr cfg y row ((nm, s) :: rest) ctr
        = processFragments tr cfg y row rest ctr) := by
  refine ⟨?_, ?_, ?_, ?_⟩
  · intro hlen
    rw [parse_date, if_pos hlen]
  · intro d hint hmonth
    by_cases hlen : (pySplit ' ' (pyStrip s)).length < 2
    · rw [parse_date, if_pos hlen]
    · rw [parse_date, if_neg hlen, hint]
      simp only [hmonth]
  · intro d mth hint hmonth hvalid
    by_cases hlen : (pySplit ' ' (pyStrip s)).length < 2
    · rw [parse_date, if_pos hlen]
    · rw [parse_date, if_neg hlen, hint]
      simp only [hmonth, hvalid]
      simp [hvalid]
  · intro hparse
    simp only [processFragments, hparse]

/-- C4 amended witness: single-token, unknown-month, and invalid-calendar-date
inputs all skip non-fatally, and the skipped fragment leaves row processing
unchanged. -/
theorem C4_amended_witness :
    parse_date "17" 2026 = Except.ok none ∧
    parse_date "17 Zilkade" 2026 = Except.ok none ∧
    parse_date "31 Februari" 2026 = Except.ok none ∧
    processFragments id cfgA 2026 rowA [("Hari Ujian", "31 Februari")] 1
      = processFragments id cfgA 2026 rowA [] 1 :=
  ⟨(C4_amended_nonfatal "17" 2026 id cfgA rowA "x" [] 1).1 (by decide),
   (C4_amended_nonfatal "17 Zilkade" 2026 id cfgA rowA "x" [] 1).2.1 17 rfl rfl,
   (C4_amended_nonfatal "31 Februari" 2026 id cfgA rowA "x" [] 1).2.2.1 31 2 rfl rfl
     (by decide),
   (C4_amended_nonfatal "31 Februari" 2026 id cfgA rowA "Hari Ujian" [] 1).2.2.2 rfl⟩

/-- C5: the refined replacement loop indexes `states_config[state_code]`
without the `.get` guard used by the first loop, so a region code with no
configuration entry raises `KeyError` and aborts the run instead of being
skipped for that region only. -/
theorem C5_keyerror_missing_config :
    computeReplacementsMap (toOrd 2026 2 17) [] ["JHR"] [] = Except.error "KeyError" ∧
    runEngine id [] 2026 [rowC5] 1 = Except.error "KeyError" :=
  ⟨rfl, rfl⟩

/-- C6: the Cell Splitter splits both cells on line breaks, trims, drops the
empty middle lines, strips trailing asterisks (stripping a trailing `*` never
changes the cleaned name), pairs positionally, and on the Scenario-A row
produces exactly the two Holiday records dated 2026-02-17 and 2026-02-18. -/
theorem C6_cell_splitter :
    (∀ s : String, cleanName (s ++ "*") = cleanName s) ∧
    splitClean rowA.raw_name = ["Hari Raya Puasa *", "Hari Raya Puasa (Hari Kedua) *"] ∧
    splitClean rowA.raw_date = ["17 Februari", "18 Februari"] ∧
    processRow id cfgA 2026 rowA 1 = .ok (hsA, lsA, 3) ∧
    hsA.map Holiday.name = ["Hari Raya Puasa", "Hari Raya Puasa (Hari Kedua)"] ∧
    hsA.map Holiday.date = [toOrd 2026 2 17, toOrd 2026 2 18] := by
  refine ⟨?_, rfl, rfl, rfl, rfl, rfl⟩
  intro s
  unfold cleanName removeStars
  congr 1
  rw [String.data_append]
  rw [List.filter_append]
  simp

/-- Every holiday emitted while processing one row's fragments has at least
one region link among that row's links. -/
theorem pf_linked (tr : String → String) (cfg : List (String × RegionConfig))
    (YEAR : Nat) (row : Row) :
    ∀ (frs : List (String × String)) (ctr : Nat) (hs : List Holiday)
      (ls : List HolidayRegion) (ctrF : Nat),
      processFragments tr cfg YEAR row frs ctr = .ok (hs, ls, ctrF) →
      ∀ h ∈ hs, ∃ l ∈ ls, l.holiday_id = h.id := by
  intro frs
  induction frs with
  | nil =>
    intro ctr hs ls ctrF h hol hmem
    rw [processFragments] at h
    obtain ⟨rfl, rfl, -⟩ : hs = [] ∧ ls = [] ∧ ctr = ctrF := by
      have h2 := h
      simp at h2
      exact h2
    simp at hmem
  | cons fr rest ih =>
    intro ctr hs ls ctrF h hol hmem
    obtain ⟨h_name, h_date_str⟩ := fr
    simp only [processFragments] at h
    split at h
    · exact absurd h (by simp)
    · exact ih _ _ _ _ h hol hmem
    · rename_i h_date hparse
      split at h
      · exact ih _ _ _ _ h hol hmem
      · rename_i hne
        split at h
        · split at h
          · exact absurd h (by simp)
          · rename_i hflc rmap hcrm
            split at h
            · exact absurd h (by simp)
            · rename_i out hs' ls' ctrF' hrec
              rw [Except.ok.injEq, Prod.mk.injEq, Prod.mk.injEq] at h
              obtain ⟨hhs, hls, -⟩ := h
              subst hhs
              subst hls
              rcases List.mem_cons.mp hmem with rfl | hmem'
              · obtain ⟨s0, hs0⟩ := List.exists_mem_of_ne_nil (affectedStates row)
                  (by simpa [List.isEmpty_iff] using hne)
                refine ⟨⟨mkId YEAR ctr, s0⟩, ?_, rfl⟩
                simp only [List.mem_append, List.mem_map]
                exact Or.inl (Or.inl ⟨s0, hs0, rfl⟩)
              · rcases List.mem_append.mp hmem' with hmemE | hmemR
                · obtain ⟨l, hl, hid⟩ := emit_linked (mkId YEAR ctr) (cleanName h_name)
                    (tr (cleanName h_name)) h_date YEAR rmap (ctr + 1)
                    (crm_nonempty h_date cfg (affectedStates row) [] rmap hcrm (by simp))
                    hol hmemE
                  refine ⟨l, ?_, hid⟩
                  simp only [List.mem_append]
                  exact Or.inl (Or.inr hl)
                · obtain ⟨l, hl, hid⟩ := ih _ _ _ _ hrec hol hmemR
                  refine ⟨l, ?_, hid⟩
                  simp only [List.mem_append]
                  exact Or.inr hl
        · exact absurd h (by simp)

/-- C7: every Holiday record in the engine's output (base or replacement) is
associated with at least one region in the output link set; in particular a
holiday with no affirmative region marker is never emitted, and every
replacement record's region group is non-empty. -/
theorem C7_every_holiday_linked (tr : String → String)
    (cfg : List (String × RegionConfig)) (YEAR : Nat) :
    ∀ (rows : List Row) (ctr : Nat) (hs : List Holiday) (ls : List HolidayRegion)
      (c : Nat), runEngine tr cfg YEAR rows ctr = .ok (hs, ls, c) →
      ∀ h ∈ hs, ∃ l ∈ ls, l.holiday_id = h.id := by
  intro rows
  induction rows with
  | nil =>
    intro ctr hs ls c h hol hmem
    rw [runEngine] at h
    obtain ⟨rfl, rfl, -⟩ : hs = [] ∧ ls = [] ∧ ctr = c := by
      have h2 := h
      simp at h2
      exact h2
    simp at hmem
  | cons row rest ih =>
    intro ctr hs ls c h hol hmem
    rw [runEngine] at h
    split at h
    · exact absurd h (by simp)
    · rename_i hsR lsR ctr' hrow
      split at h
      · exact absurd h (by simp)
      · rename_i hs2 ls2 ctrF hrest
        rw [Except.ok.injEq, Prod.mk.injEq, Prod.mk.injEq] at h
        obtain ⟨hhs, hls, -⟩ := h
        subst hhs
        subst hls
        rcases List.mem_append.mp hmem with hmemR | hmemT
        · obtain ⟨l, hl, hid⟩ := pf_linked tr cfg YEAR row _ _ _ _ _ hrow hol hmemR
          exact ⟨l, List.mem_append.mpr (Or.inl hl), hid⟩
        · obtain ⟨l, hl, hid⟩ := ih _ _ _ _ hrest hol hmemT
          exact ⟨l, List.mem_append.mpr (Or.inr hl), hid⟩

/-- C7 witness: in the concrete Scenario-A run, the first emitted holiday has
a region link. -/
theorem C7_witness : ∃ l ∈ lsA, l.holiday_id = "mys-2026-001" :=
  C7_every_holiday_linked id cfgA 2026 [rowA] 1 hsA lsA 3 rfl
    { id := "mys-2026-001", name := "Hari Raya Puasa", name_en := "Hari Raya Puasa",
      date := toOrd 2026 2 17, day_of_week := "Tuesday", type := "state",
      is_replacement_holiday := false, original_date := none,
      original_holiday_id := none, replaced_by := none, replacement_reason := none }
    (by decide)

/-- C8: the Replacement Resolver and the whole engine are deterministic pure
functions of their arguments (the translation collaborator modelled as a fixed
oracle): equal inputs give structurally equal outputs. -/
theorem C8_determinism (d d' : Nat) (w w' : List String) (rul rul' : String)
    (tr tr' : String → String) (cfg cfg' : List (String × RegionConfig))
    (y y' : Nat) (rows rows' : List Row) (c c' : Nat)
    (h1 : d = d') (h2 : w = w') (h3 : rul = rul') (h4 : tr = tr') (h5 : cfg = cfg')
    (h6 : y = y') (h7 : rows = rows') (h8 : c = c') :
    get_replacement_date d w rul = get_replacement_date d' w' rul' ∧
    runEngine tr cfg y rows c = runEngine tr' cfg' y' rows' c' := by
  subst h1 h2 h3 h4 h5 h6 h7 h8
  exact ⟨rfl, rfl⟩

/-- C8 witness: two runs of the engine on the concrete Scenario-A input agree. -/
theorem C8_witness :
    get_replacement_date dSat ["Saturday", "Sunday"] "replace_next_working_day"
      = get_replacement_date dSat ["Saturday", "Sunday"] "replace_next_working_day" ∧
    runEngine id cfgA 2026 [rowA] 1 = runEngine id cfgA 2026 [rowA] 1 :=
  C8_determinism dSat dSat ["Saturday", "Sunday"] ["Saturday", "Sunday"]
    "replace_next_working_day" "replace_next_working_day" id id cfgA cfgA
    2026 2026 [rowA] [rowA] 1 1 rfl rfl rfl rfl rfl rfl rfl rfl

end Ingest
